import Mathlib

/-!
Verification of the pogoproto game-master analyser (`src/pogoproto.cpp`).

The development shallowly embeds the three subsystems the claims are about:

* the protobuf wire decoder (`class ProtoBuf`, lines 118-238 of the source):
  a cursor over an immutable byte buffer with `readVarInt`, `readBytes` and
  `getMessage`;
* the record extractor (the body of `main`'s decode loop, lines 660-882):
  item-template envelopes classified by name and decoded into pokemon /
  move / type records;
* the combat simulator and ranking aggregation (the per-moveset loop in
  `main`, lines 1113-1267).

Bytes are modelled as natural numbers; every read masks with `% 256`,
mirroring the `uint8_t` cells of the source buffer.  Machine `uint64_t`
arithmetic is modelled with explicit `% 2 ^ 64`; values stored into C `int`
fields go through `toInt32`.  IEEE doubles of the simulator are modelled as
rationals; the float fields obtained by `memcpy` reinterpretation (move
power, type effectiveness) are kept as their raw little-endian byte lists,
since bit-level float reinterpretation has no counterpart on `ℚ`.
C library calls: `floor` is `Int.floor`, `fmod x y = x - y * trunc (x / y)`
(C99 semantics, truncation toward zero) is `cfmod` below.

The decode loops of the source are `while (bytesLeft())` loops; every
iteration consumes at least one byte, so each embedded loop is driven by a
fuel argument initialised with the buffer length, which can never run out
on the inputs the loops are actually run on.  Exceptions
(`BufferOverflowException`, `InvalidMessageException`,
`UnsupportedTypeException`, `InvalidArgumentException`) become the
`Except DecErr` monad; the source has no try/catch anywhere, which the
embedding mirrors by always propagating errors.
-/

/-- Decode-fatal conditions of the source, one per exception class. -/
inductive DecErr where
  | bufferOverflow
  | invalidMessage
  | unsupportedType
  | invalidArgument
deriving DecidableEq

/-- Payload of a decoded wire message.  The source stores this as a raw
union; reading a member that was not the one written is undefined
behaviour there, so the embedding uses a sum together with total accessors
that default to zero / the empty list. -/
inductive MsgData where
  | none
  | varInt (v : Nat)
  | sub (bytes : List Nat)
  | fixed (bytes : List Nat)
deriving DecidableEq

/-- A decoded wire message (`struct Message`): wire type (`UNKNOWN_TYPE`,
255, before assignment), field tag and payload. -/
structure Message where
  type : Nat := 255
  tag : Nat := 0
  data : MsgData := .none
deriving DecidableEq

/-- The union member `data.varInt` as read by the extractor (meaningful
only when the message is a varint; other reads are UB in the source and
modelled as 0). -/
def Message.varIntData (m : Message) : Nat :=
  match m.data with
  | .varInt v => v
  | _ => 0

/-- The union member `data.subMessage` (meaningful only for
length-prefixed messages; the source keeps a pointer and a length into the
parent buffer, the model keeps the bytes of that range). -/
def Message.subData (m : Message) : List Nat :=
  match m.data with
  | .sub bs => bs
  | _ => []

/-- The union member `data.fixed` (meaningful only for 32/64-bit fixed
messages). -/
def Message.fixedData (m : Message) : List Nat :=
  match m.data with
  | .fixed bs => bs
  | _ => []

deriving instance DecidableEq for Except

/-- The decoder state (`class ProtoBuf`): byte buffer plus cursor. -/
structure PB where
  buf : List Nat
  ptr : Nat
deriving DecidableEq

/-- Number of bytes left to read (`getBytesLeft`). -/
def PB.bytesLeft (s : PB) : Nat := s.buf.length - s.ptr

/-- Reads a single byte (`getByte`): out of bounds is a buffer overflow,
otherwise the `uint8_t` cell (masked to a byte) is returned and the cursor
advances. -/
def PB.getByte (s : PB) : Except DecErr (Nat × PB) :=
  match s.buf[s.ptr]? with
  | some b => .ok (b % 256, { s with ptr := s.ptr + 1 })
  | none => .error .bufferOverflow

/-- Loop body of `readVarInt`: at most `fuel` further bytes (the source
hard-caps at 10 iterations), `i` the index of the current 7-bit group,
`acc` the `uint64_t` accumulator.  Each byte contributes its low 7 bits
shifted by `7*i` (the shift is `uint64_t` arithmetic, hence the
`% 2 ^ 64`); a clear high bit stops the loop. -/
def readVarIntGo (buf : List Nat) : Nat → Nat → Nat → Nat → Except DecErr (Nat × Nat)
  | 0, _, ptr, acc => .ok (acc, ptr)
  | fuel + 1, i, ptr, acc =>
    match buf[ptr]? with
    | none => .error .bufferOverflow
    | some b0 =>
      let b := b0 % 256
      let acc2 := acc ||| (((b % 128) <<< (7 * i)) % 2 ^ 64)
      if b &&& 128 = 0 then .ok (acc2, ptr + 1)
      else readVarIntGo buf fuel (i + 1) (ptr + 1) acc2

/-- Reads a varint (`readVarInt`, source lines 146-160): little-endian
7-bit groups, at most 10 bytes. -/
def PB.readVarInt (s : PB) : Except DecErr (Nat × PB) :=
  match readVarIntGo s.buf 10 0 s.ptr 0 with
  | .ok (v, p) => .ok (v, { s with ptr := p })
  | .error e => .error e

/-- Reads `n` raw bytes (`readBytes`). -/
def PB.readBytes (s : PB) : Nat → Except DecErr (List Nat × PB)
  | 0 => .ok ([], s)
  | n + 1 => do
    let (b, s2) ← s.getByte
    let (bs, s3) ← s2.readBytes n
    .ok (b :: bs, s3)

/-- Constructs a sub-decoder from a length-prefixed message (the
`ProtoBuf(const Message &)` constructor, which throws
`InvalidArgumentException` on any other wire type). -/
def mkSubBuf (m : Message) : Except DecErr PB :=
  if m.type = 2 then .ok ⟨m.subData, 0⟩ else .error .invalidArgument

/-- Reads one tag/value message (`getMessage`, source lines 187-232).
The key varint yields wire type `key & 7` and tag `key >> 3`; wire type 0
reads a varint, 1 and 5 read 8 and 4 raw bytes, 2 reads a length varint
and takes that many bytes as a sub-range (a declared length larger than
the bytes left is an invalid message); any other wire type (3, 4, 6, 7) is
unsupported. -/
def PB.getMessage (s : PB) : Except DecErr (Message × PB) := do
  let (key, s1) ← s.readVarInt
  if key &&& 7 = 0 then do
    let (v, s2) ← s1.readVarInt
    .ok ({ type := 0, tag := key >>> 3, data := .varInt v }, s2)
  else if key &&& 7 = 1 then do
    let (bs, s2) ← s1.readBytes 8
    .ok ({ type := 1, tag := key >>> 3, data := .fixed bs }, s2)
  else if key &&& 7 = 2 then do
    let (len, s2) ← s1.readVarInt
    if len > s2.bytesLeft then .error .invalidMessage
    else .ok ({ type := 2, tag := key >>> 3, data := .sub ((s2.buf.drop s2.ptr).take len) },
              { s2 with ptr := s2.ptr + len })
  else if key &&& 7 = 5 then do
    let (bs, s2) ← s1.readBytes 4
    .ok ({ type := 5, tag := key >>> 3, data := .fixed bs }, s2)
  else .error .unsupportedType

/-- Modelled from the spec: the varint wire format itself ("encoding as
continuation-flagged 7-bit little-endian groups"); the source only ever
decodes, so the encoder follows the spec's words, capped at the spec's 10
groups (enough for every value below `2 ^ 70`). -/
def encodeVarIntAux : Nat → Nat → List Nat
  | 0, _ => []
  | fuel + 1, n => if n < 128 then [n] else (n % 128 + 128) :: encodeVarIntAux fuel (n / 128)

/-- Modelled from the spec: encoding of a value into at most 10
continuation-flagged 7-bit little-endian groups. -/
def encodeVarInt (n : Nat) : List Nat := encodeVarIntAux 10 n

/-- Conversion of a decoded `uint64_t` into a C `int` (32-bit two's
complement narrowing), as happens on every assignment of
`msg.data.varInt` into an `int` field of the extractor. -/
def toInt32 (v : Nat) : Int :=
  if v % 2 ^ 32 < 2 ^ 31 then ((v % 2 ^ 32 : Nat) : Int)
  else ((v % 2 ^ 32 : Nat) : Int) - 2 ^ 32

/-- A decoded pokemon record (`struct PokemonInfo`, source lines 269-287).
The source leaves the stat fields uninitialised until the corresponding
field is decoded; the model defaults them to 0.  The id and name live in
the classification step, and the derived floating-point fields (`maxCP`,
`tankiness`, `trueStrength`, `prestigerCPMultiplier`, lines 761-772)
involve `sqrt` on doubles and only feed the ranking, where the simulator
model takes them as parameters. -/
structure PokemonInfo where
  baseAtk : Int := 0
  baseDef : Int := 0
  baseStamina : Int := 0
  fastMoves : List Int := []
  chargedMoves : List Int := []
  nAvailableFastMoves : Nat := 0
  nAvailableChargedMoves : Nat := 0
  pokemonTypes : List Int := []
deriving DecidableEq

/-- A decoded move record (`struct MoveInfo`).  The power field is a
float obtained by `memcpy` from 4 raw bytes; the model keeps those bytes.
The derived `eps` / `dps` / `dpe` fields (lines 824-826) are only used by
the out-of-scope moves.txt report and are omitted. -/
structure MoveInfo where
  moveType : Int := 0
  powerBits : List Nat := []
  duration : ℚ := 0
  energy : Int := 0
deriving DecidableEq

/-- A decoded type record: type id (initialised to -1 in the source) and
the effectiveness table as (index, 4 raw float bytes) rows, indices
counting up from 1. -/
structure TypeInfo where
  id : Int := -1
  chart : List (Int × List Nat) := []
deriving DecidableEq

/-- The base-stats sub-message walk (source lines 715-729): varint fields
1, 2, 3 set stamina, attack, defense. -/
def parseBaseStats : Nat → PB → PokemonInfo → Except DecErr PokemonInfo
  | 0, _, pi => .ok pi
  | fuel + 1, s, pi =>
    if s.bytesLeft = 0 then .ok pi
    else do
      let (m, s2) ← s.getMessage
      let pi2 :=
        if m.type = 0 then
          if m.tag = 1 then { pi with baseStamina := toInt32 m.varIntData }
          else if m.tag = 2 then { pi with baseAtk := toInt32 m.varIntData }
          else if m.tag = 3 then { pi with baseDef := toInt32 m.varIntData }
          else pi
        else pi
      parseBaseStats fuel s2 pi2

/-- A flat run of varint move ids with no length prefix (source lines
737-740 and 748-751): read until the sub-buffer is exhausted. -/
def readMoveIds : Nat → PB → List Int → Except DecErr (List Int)
  | 0, _, acc => .ok acc
  | fuel + 1, s, acc =>
    if s.bytesLeft = 0 then .ok acc
    else do
      let (v, s2) ← s.readVarInt
      readMoveIds fuel s2 (acc ++ [toInt32 v])

/-- The pokemon-details walk (source lines 703-755): fields 4 and 5
append a type id (no duplication of a single type happens here), field 8
is the nested base-stats message, fields 9 and 10 are the flat
fast/charged move id runs. -/
def parsePokemonDetailsLoop : Nat → PB → PokemonInfo → Except DecErr PokemonInfo
  | 0, _, pi => .ok pi
  | fuel + 1, s, pi =>
    if s.bytesLeft = 0 then .ok pi
    else do
      let (m, s2) ← s.getMessage
      if m.tag = 4 ∨ m.tag = 5 then
        parsePokemonDetailsLoop fuel s2
          { pi with pokemonTypes := pi.pokemonTypes ++ [toInt32 m.varIntData] }
      else if m.tag = 8 then do
        let sub ← mkSubBuf m
        let pi2 ← parseBaseStats sub.buf.length sub pi
        parsePokemonDetailsLoop fuel s2 pi2
      else if m.tag = 9 then do
        let sub ← mkSubBuf m
        let ids ← readMoveIds sub.buf.length sub pi.fastMoves
        parsePokemonDetailsLoop fuel s2 { pi with fastMoves := ids }
      else if m.tag = 10 then do
        let sub ← mkSubBuf m
        let ids ← readMoveIds sub.buf.length sub pi.chargedMoves
        parsePokemonDetailsLoop fuel s2 { pi with chargedMoves := ids }
      else parsePokemonDetailsLoop fuel s2 pi

/-- Decoding of one pokemon-details sub-message, ending with the
pre-legacy movepool sizes being recorded (source lines 757-758). -/
def parsePokemonDetails (bytes : List Nat) : Except DecErr PokemonInfo := do
  let pi ← parsePokemonDetailsLoop bytes.length ⟨bytes, 0⟩ {}
  .ok { pi with nAvailableFastMoves := pi.fastMoves.length,
                nAvailableChargedMoves := pi.chargedMoves.length }

/-- The move-details walk (source lines 801-821): field 3 the type id,
field 4 the 4 power bytes, field 12 the duration in encoded thousandths
of a second, field 15 the energy delta reinterpreted as signed. -/
def parseMoveDetailsLoop : Nat → PB → MoveInfo → Except DecErr MoveInfo
  | 0, _, mi => .ok mi
  | fuel + 1, s, mi =>
    if s.bytesLeft = 0 then .ok mi
    else do
      let (m, s2) ← s.getMessage
      let mi2 :=
        if m.tag = 3 then { mi with moveType := toInt32 m.varIntData }
        else if m.tag = 4 then { mi with powerBits := m.fixedData.take 4 }
        else if m.tag = 12 then { mi with duration := (m.varIntData : ℚ) / 1000 }
        else if m.tag = 15 then { mi with energy := toInt32 m.varIntData }
        else mi
      parseMoveDetailsLoop fuel s2 mi2

/-- Decoding of one move-details sub-message. -/
def parseMoveDetails (bytes : List Nat) : Except DecErr MoveInfo :=
  parseMoveDetailsLoop bytes.length ⟨bytes, 0⟩ {}

/-- The nested effectiveness run of a type record (source lines 852-869):
4 raw bytes per opposing type, indices counting from 1. -/
def parseDamageTable : Nat → PB → Int → List (Int × List Nat) → Except DecErr (List (Int × List Nat))
  | 0, _, _, acc => .ok acc
  | fuel + 1, s, index, acc =>
    if s.bytesLeft = 0 then .ok acc
    else do
      let (bs, s2) ← s.readBytes 4
      parseDamageTable fuel s2 (index + 1) (acc ++ [(index, bs)])

/-- The type-details walk (source lines 846-876): field 1 the nested
effectiveness table, field 2 the type id. -/
def parseTypeDetailsLoop : Nat → PB → TypeInfo → Except DecErr TypeInfo
  | 0, _, ti => .ok ti
  | fuel + 1, s, ti =>
    if s.bytesLeft = 0 then .ok ti
    else do
      let (m, s2) ← s.getMessage
      if m.tag = 1 then do
        let sub ← mkSubBuf m
        let rows ← parseDamageTable sub.buf.length sub 1 []
        parseTypeDetailsLoop fuel s2 { ti with chart := rows }
      else if m.tag = 2 then
        parseTypeDetailsLoop fuel s2 { ti with id := toInt32 m.varIntData }
      else parseTypeDetailsLoop fuel s2 ti

/-- Decoding of one type-details sub-message. -/
def parseTypeDetails (bytes : List Nat) : Except DecErr TypeInfo :=
  parseTypeDetailsLoop bytes.length ⟨bytes, 0⟩ {}

/-- Result of the external name classification (source lines 656-658 and
690-695): the three mutually exclusive regex patterns plus the
filtered-pokemon set lookup are collaborators outside the core, so the
embedding takes the classifier as a function argument. -/
inductive NameClass where
  | pokemon (id : Int) (filteredOut : Bool)
  | move (id : Int)
  | ptype
  | other
deriving DecidableEq

/-- What one item template contributes to the global record tables. -/
inductive Record where
  | pokemon (id : Int) (info : PokemonInfo)
  | move (id : Int) (info : MoveInfo)
  | ptype (info : TypeInfo)
  | skipped
deriving DecidableEq

/-- The inner envelope walk (source lines 670-682): field 1 is the name,
fields 2, 4 and 8 all land in the single `details` slot; both slots start
as `UNKNOWN_TYPE` messages. -/
def collectTemplateFields : Nat → PB → Message → Message → Except DecErr (Message × Message)
  | 0, _, name, details => .ok (name, details)
  | fuel + 1, s, name, details =>
    if s.bytesLeft = 0 then .ok (name, details)
    else do
      let (m, s2) ← s.getMessage
      if m.tag = 1 then collectTemplateFields fuel s2 m details
      else if m.tag = 2 ∨ m.tag = 4 ∨ m.tag = 8 then collectTemplateFields fuel s2 name m
      else collectTemplateFields fuel s2 name details

/-- Processing of one item-template envelope (source lines 666-881):
collect name and details, skip unless both are length-prefixed, classify
the name externally, then decode the details per record kind.  Decode
errors propagate: nothing catches them. -/
def processItemTemplate (classify : List Nat → NameClass) (tmpl : List Nat) :
    Except DecErr Record := do
  let (name, details) ← collectTemplateFields tmpl.length ⟨tmpl, 0⟩ {} {}
  if name.type = 2 ∧ details.type = 2 then
    match classify name.subData with
    | .pokemon id filt =>
      if filt then .ok .skipped
      else do
        let pi ← parsePokemonDetails details.subData
        .ok (.pokemon id pi)
    | .move id => do
        let mi ← parseMoveDetails details.subData
        .ok (.move id mi)
    | .ptype => do
        let ti ← parseTypeDetails details.subData
        .ok (.ptype ti)
    | .other => .ok .skipped
  else .ok .skipped

/-- The outermost decode loop (source lines 660-882): every message of
the outer buffer is read; length-prefixed messages with tag 2 (the
`ITEM_TEMPLATE` field) are processed, everything else is skipped.  There
is no error recovery anywhere: an error from inside a template aborts the
whole run exactly like an error on the outer buffer itself. -/
def gmLoop (classify : List Nat → NameClass) : Nat → PB → List Record →
    Except DecErr (List Record)
  | 0, _, acc => .ok acc
  | fuel + 1, s, acc =>
    if s.bytesLeft = 0 then .ok acc
    else do
      let (m, s2) ← s.getMessage
      if m.type = 2 ∧ m.tag = 2 then do
        let r ← processItemTemplate classify m.subData
        gmLoop classify fuel s2 (acc ++ [r])
      else gmLoop classify fuel s2 acc

/-- The whole decode phase over the outer buffer. -/
def parseGameMaster (classify : List Nat → NameClass) (bytes : List Nat) :
    Except DecErr (List Record) :=
  gmLoop classify bytes.length ⟨bytes, 0⟩ []

/-- Truncation of a rational toward zero, the rounding C uses inside
`fmod`. -/
def ratTrunc (q : ℚ) : Int := Int.tdiv q.num q.den

/-- C99 `fmod x y = x - y * trunc (x / y)`, as used for the strike-window
position at source line 1161. -/
def cfmod (x y : ℚ) : ℚ := x - y * (ratTrunc (x / y) : ℚ)

/-- The attacker's combat-power multiplier (`ATTACKER_CPM`, source line
449, the level-30 multiplier 0.7317). -/
def ATTACKER_CPM : ℚ := 7317 / 10000

/-- A move as the simulator reads it: power (a float in the source),
cast duration in seconds, energy delta and type id. -/
structure SimMove where
  power : ℚ
  duration : ℚ
  energy : Int
  moveType : Int
deriving DecidableEq

/-- The pokemon fields the per-moveset loop reads.  The derived
`trueStrength` and `prestigerCPMultiplier` values are computed during
extraction (via `sqrt` on doubles) and enter here as parameters. -/
structure SimPokemon where
  baseAtk : Int
  baseStamina : Int
  pokemonTypes : List Int
  trueStrength : ℚ
  prestigerCPMultiplier : ℚ
  nAvailableFastMoves : Nat
  nAvailableChargedMoves : Nat
deriving DecidableEq

/-- The configuration the simulator reads (`conf.roundLength` is the
opponent strike interval, `conf.battleTime` both the simulated duration
and the regeneration lifetime). -/
structure SimConf where
  roundLength : ℚ
  battleTime : ℚ
deriving DecidableEq

/-- Source line 1128: `floor((conf.roundLength - 0.5) / fastMove.duration)`
(the constant in the code is 0.5). -/
def expectedHitsPerTurn (r d : ℚ) : Int := ⌊(r - 1 / 2) / d⌋

/-- Everything the inner battle loop (source lines 1141-1199) reads but
never writes: configuration, the creature, the two moves, and the three
loop-invariant values computed before the loop (`expectedHitsPerTurn`,
`dodging`, `extraEnergy`). -/
structure SimCtx where
  conf : SimConf
  pi : SimPokemon
  fastMove : SimMove
  chargedMove : SimMove
  expectedHitsPerTurn : Int
  dodging : Bool
  extraEnergy : ℚ
deriving DecidableEq

/-- The mutable state of the battle loop. -/
structure SimState where
  time : ℚ
  energy : ℚ
  damage : ℚ
  primaryDamage : ℚ
  secondaryDamage : ℚ
deriving DecidableEq

/-- Loop entry state: clock, energy and damages all zero (source lines
1122-1126). -/
def simInit : SimState := ⟨0, 0, 0, 0, 0⟩

/-- One iteration of the battle loop (source lines 1141-1199).  The
source selects `moveToUse` and then runs a shared update tail; the
embedding specialises that tail per branch (`nConsecutiveHits` is 1 in
the charged branch, so the `* hits` factors are dropped there, and the
trailing `moveToUse == &fastMove` dodge-window test of line 1190 is true
exactly in the fast branch — when the same map entry serves as both fast
and charged move the source compares equal pointers but then reads the
uninitialised `remTime`, which is undefined behaviour we do not model).
The charged move is taken whenever `energy >= -chargedMove.energy`; the
fast branch packs `min(floor(remTime / duration), expectedHitsPerTurn)`
casts before the next strike and then waits out the rest of the window,
at least 0.5 seconds; energy updates add the cast deltas plus
`(duration / battleTime) * extraEnergy` per cast and are then clamped at
100. -/
def simStep (c : SimCtx) (s : SimState) : SimState :=
  if s.energy ≥ -(c.chargedMove.energy : ℚ) then
    let m := c.chargedMove
    let stab : ℚ := if m.moveType ∈ c.pi.pokemonTypes then 5 / 4 else 1
    let energy := s.energy + (m.energy : ℚ)
      + (m.duration / c.conf.battleTime) * c.extraEnergy
    { time := s.time + m.duration
      energy := if energy > 100 then 100 else energy
      damage := s.damage + m.power * stab
      primaryDamage := s.primaryDamage
      secondaryDamage := s.secondaryDamage + m.power * stab }
  else
    let m := c.fastMove
    let remTime := c.conf.roundLength - cfmod s.time c.conf.roundLength
    let hits : Int :=
      if c.dodging then min ⌊remTime / m.duration⌋ c.expectedHitsPerTurn else 1
    let stab : ℚ := if m.moveType ∈ c.pi.pokemonTypes then 5 / 4 else 1
    let energy := s.energy + (m.energy : ℚ) * (hits : ℚ)
      + (m.duration / c.conf.battleTime) * c.extraEnergy * (hits : ℚ)
    let time := s.time + m.duration * (hits : ℚ)
    { time :=
        if c.dodging then
          time + (let r2 := remTime - m.duration * (hits : ℚ);
                  if r2 < 1 / 2 then 1 / 2 else r2)
        else time
      energy := if energy > 100 then 100 else energy
      damage := s.damage + m.power * stab * (hits : ℚ)
      primaryDamage := s.primaryDamage + m.power * stab * (hits : ℚ)
      secondaryDamage := s.secondaryDamage }

/-- The battle loop `while (time < conf.battleTime)`, driven by fuel:
`none` means the fuel ran out before the clock reached the horizon. -/
def simRun (c : SimCtx) : Nat → SimState → Option SimState
  | 0, s => if s.time < c.conf.battleTime then none else some s
  | fuel + 1, s =>
    if s.time < c.conf.battleTime then simRun c fuel (simStep c s) else some s

/-- One ranking entry (`struct MovesetDPS`, source lines 338-372). -/
structure MovesetDPS where
  pokemonId : Int
  fastId : Int
  chargedId : Int
  isLegacy : Bool
  dodging : Bool
  DPS : ℚ := 0
  msDPS : ℚ := 0
  truePower : ℚ := 0
  prestigePower : ℚ := 0
  fastAttacksPerTurn : Int
deriving DecidableEq

/-- The populate method of `MovesetDPS` (source lines 351-357): derives the four
metrics from a raw damage-per-second value. -/
def MovesetDPS.populate (mdps : MovesetDPS) (rawDPS : ℚ) (pi : SimPokemon) : MovesetDPS :=
  { mdps with
    msDPS := rawDPS
    DPS := rawDPS * ((pi.baseAtk : ℚ) + 15)
    truePower := rawDPS * pi.trueStrength * (if mdps.dodging then 1 else 1 / 4)
    prestigePower := rawDPS * pi.trueStrength * pi.prestigerCPMultiplier ^ 3 }

/-- What one moveset contributes to the four ranking pools (the
per-pokemon list, the overall list, the per-type buckets and the
type-pair counter buckets; source lines 1216-1266). -/
structure MovesetOutput where
  perPokemon : List MovesetDPS := []
  overall : List MovesetDPS := []
  byType : List (Int × MovesetDPS) := []
  counters : List ((Int × Int) × MovesetDPS) := []
deriving DecidableEq

/-- The body of the per-moveset loop (source lines 1113-1267) for one
(fast, charged) pair: compute `expectedHitsPerTurn` once, skip ("continue")
the moveset entirely when it is not positive, otherwise simulate and
populate the entries pushed into each pool.  `typeIds` are the type-chart
keys in ascending order and `eff` the effectiveness lookup
(`typeChart[a][b]`, 0 for missing entries exactly like `std::map`'s
`operator[]`). -/
def processMoveset (conf : SimConf) (typeIds : List Int) (eff : Int → Int → ℚ)
    (pokemonId : Int) (pi : SimPokemon) (i j : Nat) (fmi cmi : Int)
    (fm cm : SimMove) (fuel : Nat) : Option MovesetOutput :=
  let E := expectedHitsPerTurn conf.roundLength fm.duration
  let dodging := decide (E > 0)
  if E > 0 then
    let legacy := decide (i ≥ pi.nAvailableFastMoves) || decide (j ≥ pi.nAvailableChargedMoves)
    let extraEnergy := (1 / 2 : ℚ) * (((pi.baseStamina : ℚ) + 15) * ATTACKER_CPM)
    match simRun ⟨conf, pi, fm, cm, E, dodging, extraEnergy⟩ fuel simInit with
    | none => none
    | some s =>
      let rawDps := s.damage / s.time
      let base : MovesetDPS :=
        { pokemonId := pokemonId, fastId := fmi, chargedId := cmi,
          isLegacy := legacy, dodging := dodging, fastAttacksPerTurn := E }
      let mDPS := base.populate rawDps pi
      let byType :=
        if cm.moveType = fm.moveType then [(fm.moveType, mDPS)]
        else [(fm.moveType, mDPS.populate (s.primaryDamage / s.time) pi),
              (cm.moveType, mDPS.populate (s.secondaryDamage / s.time) pi)]
      let counters := typeIds.bind fun t1 =>
        (typeIds.filter fun t2 => ! decide (t1 > t2)).map fun t2 =>
          let theDamage :=
            if t1 = t2 then
              s.primaryDamage * eff fm.moveType t1 + s.secondaryDamage * eff cm.moveType t1
            else
              s.primaryDamage * eff fm.moveType t1 * eff fm.moveType t2
                + s.secondaryDamage * eff cm.moveType t1 * eff cm.moveType t2
          ((t1, t2), mDPS.populate (theDamage / s.time) pi)
      some { perPokemon := [mDPS], overall := [mDPS], byType := byType, counters := counters }
  else some {}

/-- A sample fast move: power 1, one-second cast, energy gain 50,
type 1. -/
def sampleFast : SimMove := ⟨1, 1, 50, 1⟩

/-- A sample charged move: power 10, two-second cast, energy cost 50
(stored as -50), type 1. -/
def sampleCharged : SimMove := ⟨10, 2, -50, 1⟩

/-- A sample single-typed creature of type 1 with stamina 85. -/
def samplePokemon : SimPokemon := ⟨100, 85, [1], 1, 1, 1, 1⟩

/-- A sample battle context: 2.5-second strike interval, 100-second
battle, per-turn cap 2, dodging, with the extra energy the source would
derive from stamina 85. -/
def sampleCtx : SimCtx :=
  ⟨⟨5 / 2, 100⟩, samplePokemon, sampleFast, sampleCharged, 2, true, 7317 / 200⟩

/-- A charged move with zero stored energy delta (a non-positive value,
hence handled as a charged move by the source, compare `addLegacyMove`):
its cast is permitted at energy 0. -/
def regenCharged : SimMove := ⟨10, 2, 0, 1⟩

/-- The sample context with the zero-cost charged move, whose first
simulation step is a charged cast. -/
def regenCtx : SimCtx :=
  ⟨⟨5 / 2, 100⟩, samplePokemon, sampleFast, regenCharged, 2, true, 7317 / 200⟩

/-- Disjoint bitwise or is addition: bits of `a` live below `k`, bits of
`b * 2 ^ k` live at or above `k`. -/
theorem lor_mul_pow_eq_add (a b k : Nat) (h : a < 2 ^ k) :
    a ||| (b * 2 ^ k) = 2 ^ k * b + a := by
  rw [← Nat.shiftLeft_eq]
  apply Nat.eq_of_testBit_eq
  intro j
  rw [Nat.testBit_lor, Nat.testBit_shiftLeft, Nat.testBit_mul_pow_two_add _ h]
  by_cases hj : j < k
  · simp [hj, show ¬ j ≥ k by omega]
  · have ha : a.testBit j = false :=
      Nat.testBit_lt_two_pow (lt_of_lt_of_le h (Nat.pow_le_pow_right (by norm_num) (by omega)))
    simp [hj, show j ≥ k by omega, ha]

/-- The encoder emits at most as many groups as it is given fuel. -/
theorem encodeVarIntAux_length (e : Nat) : ∀ n, (encodeVarIntAux e n).length ≤ e := by
  induction e with
  | zero => intro n; simp [encodeVarIntAux]
  | succ e ih =>
    intro n
    by_cases h : n < 128
    · simp [encodeVarIntAux, h]
    · simpa [encodeVarIntAux, h] using ih (n / 128)

/-- Decoding an encoded value located at the cursor: the accumulator gains
exactly `n * 2 ^ (7*i)` and the cursor advances over the encoded bytes.
`e` bounds the number of groups of `n`, `fuel` the decoder iterations
left. -/
theorem readVarIntGo_encode :
    ∀ (e n fuel i acc : Nat) (pre rest : List Nat),
      n < 128 ^ e → 1 ≤ e → e ≤ fuel →
      acc < 2 ^ (7 * i) → acc + n * 2 ^ (7 * i) < 2 ^ 64 →
      readVarIntGo (pre ++ encodeVarIntAux e n ++ rest) fuel i pre.length acc
        = .ok (acc + n * 2 ^ (7 * i), pre.length + (encodeVarIntAux e n).length) := by
  intro e
  induction e with
  | zero => intro n fuel i acc pre rest _ h1; omega
  | succ e ih =>
    intro n fuel i acc pre rest hn _ hfuel hacc hbound
    obtain ⟨f, rfl⟩ : ∃ f, fuel = f + 1 := ⟨fuel - 1, by omega⟩
    by_cases h : n < 128
    · rw [show encodeVarIntAux (e + 1) n = [n] from by simp [encodeVarIntAux, h]]
      have hb : (pre ++ [n] ++ rest)[pre.length]? = some n := by
        rw [List.append_assoc, List.getElem?_append_right (Nat.le_refl _)]
        simp
      rw [readVarIntGo, hb]
      have hmod : n % 256 = n := Nat.mod_eq_of_lt (by omega)
      have hmod7 : n % 128 = n := Nat.mod_eq_of_lt h
      have hshift : (n <<< (7 * i)) % 2 ^ 64 = n * 2 ^ (7 * i) := by
        rw [Nat.shiftLeft_eq]
        exact Nat.mod_eq_of_lt (by omega)
      have hand : n &&& 128 = 0 := by
        have := Nat.and_two_pow n 7
        rw [Nat.testBit_lt_two_pow (x := n) (i := 7) (by simpa using h)] at this
        simpa using this
      simp only [hmod, hmod7, hshift]
      rw [if_pos hand, lor_mul_pow_eq_add _ _ _ hacc]
      simp [Nat.mul_comm, Nat.add_comm]
    · have hsplit : encodeVarIntAux (e + 1) n
          = (n % 128 + 128) :: encodeVarIntAux e (n / 128) := by
        simp [encodeVarIntAux, h]
      rw [hsplit]
      have hb : (pre ++ ((n % 128 + 128) :: encodeVarIntAux e (n / 128)) ++ rest)[pre.length]?
          = some (n % 128 + 128) := by
        rw [List.append_assoc, List.getElem?_append_right (Nat.le_refl _)]
        simp
      rw [readVarIntGo, hb]
      have hlt : n % 128 + 128 < 256 := by have := Nat.mod_lt n (y := 128) (by norm_num); omega
      have hmod : (n % 128 + 128) % 256 = n % 128 + 128 := Nat.mod_eq_of_lt hlt
      have hmod7 : (n % 128 + 128) % 128 = n % 128 := by
        rw [Nat.add_mod_right]
        exact Nat.mod_mod_of_dvd n (dvd_refl 128)
      have hle : (n % 128) * 2 ^ (7 * i) ≤ n * 2 ^ (7 * i) :=
        Nat.mul_le_mul_right _ (Nat.mod_le n 128)
      have hshift : ((n % 128) <<< (7 * i)) % 2 ^ 64 = (n % 128) * 2 ^ (7 * i) := by
        rw [Nat.shiftLeft_eq]
        exact Nat.mod_eq_of_lt (by omega)
      have hand : (n % 128 + 128) &&& 128 ≠ 0 := by
        have htb : (n % 128 + 128).testBit 7 = true := by
          have h2 : (2 : Nat) ^ 7 * 1 + n % 128 = n % 128 + 128 := by norm_num; omega
          have := Nat.testBit_mul_pow_two_add 1
            (i := 7) (b := n % 128) (Nat.mod_lt n (y := 128) (by norm_num)) 7
          rw [h2] at this
          simpa using this
        have := Nat.and_two_pow (n % 128 + 128) 7
        rw [htb] at this
        simp at this
        omega
      simp only [hmod, hmod7, hshift]
      rw [if_neg hand, lor_mul_pow_eq_add _ _ _ hacc]
      have he1 : 1 ≤ e := by
        rcases Nat.eq_zero_or_pos e with he | he
        · subst he; simp at hn; omega
        · exact he
      have key : 2 ^ (7 * i) * (n % 128) + acc + n / 128 * 2 ^ (7 * (i + 1))
          = acc + n * 2 ^ (7 * i) := by
        have : 2 ^ (7 * (i + 1)) = 2 ^ (7 * i) * 128 := by
          rw [show 7 * (i + 1) = 7 * i + 7 from by ring, pow_add]
          norm_num
        rw [this]
        have hnd : n % 128 + 128 * (n / 128) = n := Nat.mod_add_div n 128
        nlinarith [hnd]
      have ihres := ih (n / 128) f (i + 1) (2 ^ (7 * i) * (n % 128) + acc)
        (pre ++ [n % 128 + 128]) rest
        (by
          have : n < 128 ^ e * 128 := by
            rw [← pow_succ]; exact hn
          exact Nat.div_lt_of_lt_mul (by omega))
        he1 (by omega)
        (by
          have hm : n % 128 ≤ 127 := by have := Nat.mod_lt n (y := 128) (by norm_num); omega
          have : 2 ^ (7 * (i + 1)) = 2 ^ (7 * i) * 128 := by
            rw [show 7 * (i + 1) = 7 * i + 7 from by ring, pow_add]
            norm_num
          rw [this]
          nlinarith)
        (by rw [key]; exact hbound)
      rw [show pre ++ ((n % 128 + 128) :: encodeVarIntAux e (n / 128)) ++ rest
            = (pre ++ [n % 128 + 128]) ++ encodeVarIntAux e (n / 128) ++ rest from by simp,
          show pre.length + 1 = (pre ++ [n % 128 + 128]).length from by simp]
      rw [ihres, key]
      simp
      omega

/-- Decoding an encoded `u64` placed at the cursor yields the value back
and advances the cursor over exactly the encoded bytes. -/
theorem readVarInt_encode (n : Nat) (buf pre rest : List Nat) (h : n < 2 ^ 64)
    (hb : buf = pre ++ encodeVarInt n ++ rest) (p : Nat) (hp : p = pre.length) :
    PB.readVarInt ⟨buf, p⟩ = .ok (n, ⟨buf, p + (encodeVarInt n).length⟩) := by
  subst hb hp
  unfold PB.readVarInt
  rw [show encodeVarInt n = encodeVarIntAux 10 n from rfl,
    readVarIntGo_encode 10 n 10 0 0 pre rest
      (lt_of_lt_of_le h (by norm_num)) (by norm_num) (Nat.le_refl _)
      (by norm_num) (by simpa using h)]
  simp

/-- Bind of a successful `Except` computation. -/
theorem exbind_ok {α β : Type} (a : α) (f : α → Except DecErr β) :
    (Except.ok a >>= f) = f a := rfl

/-- Bind of a failed `Except` computation. -/
theorem exbind_err {α β : Type} (e : DecErr) (f : α → Except DecErr β) :
    ((Except.error e : Except DecErr α) >>= f) = .error e := rfl

/-- Low three bits of a key are the key modulo 8. -/
theorem and_seven (n : Nat) : n &&& 7 = n % 8 := by
  have := Nat.and_pow_two_sub_one_eq_mod n 3
  norm_num at this
  exact this

/-- Shifting a key right by three bits divides by 8. -/
theorem shiftRight_three (n : Nat) : n >>> 3 = n / 8 := by
  have := Nat.shiftRight_eq_div_pow n 3
  norm_num at this
  exact this

/-- Reading a varint-typed field (`wire type 0`) laid out at the cursor as
key then value. -/
theorem getMessage_varint_at (t v : Nat) (buf pre rest : List Nat)
    (ht : 8 * t < 2 ^ 64) (hv : v < 2 ^ 64)
    (hb : buf = pre ++ encodeVarInt (8 * t) ++ (encodeVarInt v ++ rest)) :
    PB.getMessage ⟨buf, pre.length⟩
      = .ok ({ type := 0, tag := t, data := .varInt v },
             ⟨buf, pre.length + (encodeVarInt (8 * t)).length + (encodeVarInt v).length⟩) := by
  have h1 := readVarInt_encode (8 * t) buf pre (encodeVarInt v ++ rest) ht
    (by simpa using hb) _ rfl
  have h2 := readVarInt_encode v buf (pre ++ encodeVarInt (8 * t)) rest hv
    (by simp [hb]) (pre.length + (encodeVarInt (8 * t)).length) (by simp)
  unfold PB.getMessage
  rw [h1, exbind_ok]
  have ha : (8 * t) &&& 7 = 0 := by rw [and_seven]; omega
  have hs : (8 * t) >>> 3 = t := by rw [shiftRight_three]; omega
  dsimp only
  rw [if_pos ha, h2, exbind_ok]
  simp [hs]

/-- Reading a length-delimited field (`wire type 2`) laid out at the
cursor as key, length varint, payload: the payload bytes come back as the
sub-range and the cursor lands right after them. -/
theorem getMessage_ld_at (t : Nat) (payload : List Nat) (buf pre rest : List Nat)
    (ht : 8 * t + 2 < 2 ^ 64) (hN : payload.length < 2 ^ 64)
    (hb : buf = pre ++ encodeVarInt (8 * t + 2)
        ++ (encodeVarInt payload.length ++ (payload ++ rest))) :
    PB.getMessage ⟨buf, pre.length⟩
      = .ok ({ type := 2, tag := t, data := .sub payload },
             ⟨buf, pre.length + (encodeVarInt (8 * t + 2)).length
                 + ((encodeVarInt payload.length).length + payload.length)⟩) := by
  have h1 := readVarInt_encode (8 * t + 2) buf pre
    (encodeVarInt payload.length ++ (payload ++ rest)) ht (by simpa using hb) _ rfl
  have h2 := readVarInt_encode payload.length buf (pre ++ encodeVarInt (8 * t + 2))
    (payload ++ rest) hN (by simp [hb])
    (pre.length + (encodeVarInt (8 * t + 2)).length) (by simp)
  unfold PB.getMessage
  rw [h1, exbind_ok]
  have ha : (8 * t + 2) &&& 7 = 2 := by rw [and_seven]; omega
  have hs : (8 * t + 2) >>> 3 = t := by rw [shiftRight_three]; omega
  dsimp only
  rw [if_neg (by omega : ¬ (8 * t + 2) &&& 7 = 0),
    if_neg (by omega : ¬ (8 * t + 2) &&& 7 = 1),
    if_pos ha, h2, exbind_ok]
  have hlen : buf.length = pre.length + (encodeVarInt (8 * t + 2)).length
      + (encodeVarInt payload.length).length + (payload.length + rest.length) := by
    simp [hb]
    omega
  have hleft : PB.bytesLeft ⟨buf, pre.length + (encodeVarInt (8 * t + 2)).length
      + (encodeVarInt payload.length).length⟩ = payload.length + rest.length := by
    simp [PB.bytesLeft, hlen]
  have hdrop : (buf.drop (pre.length + (encodeVarInt (8 * t + 2)).length
      + (encodeVarInt payload.length).length)).take payload.length = payload := by
    have hb2 : buf = (pre ++ encodeVarInt (8 * t + 2) ++ encodeVarInt payload.length)
        ++ (payload ++ rest) := by simp [hb]
    have hl : pre.length + (encodeVarInt (8 * t + 2)).length
        + (encodeVarInt payload.length).length
        = (pre ++ encodeVarInt (8 * t + 2) ++ encodeVarInt payload.length).length := by
      simp
      omega
    rw [hb2, hl, List.drop_left, List.take_left]
  simp only [hleft, hdrop, hs]
  rw [if_neg (show ¬ payload.length > payload.length + rest.length by omega)]
  simp [Nat.add_assoc]

/-- Reading a length-delimited field whose declared length exceeds the
remaining bytes raises the invalid-message error. -/
theorem getMessage_ld_err_at (t L : Nat) (buf pre rest : List Nat)
    (ht : 8 * t + 2 < 2 ^ 64) (hL : L < 2 ^ 64) (hshort : rest.length < L)
    (hb : buf = pre ++ encodeVarInt (8 * t + 2) ++ (encodeVarInt L ++ rest)) :
    PB.getMessage ⟨buf, pre.length⟩ = .error .invalidMessage := by
  have h1 := readVarInt_encode (8 * t + 2) buf pre (encodeVarInt L ++ rest) ht
    (by simpa using hb) _ rfl
  have h2 := readVarInt_encode L buf (pre ++ encodeVarInt (8 * t + 2)) rest hL
    (by simp [hb]) (pre.length + (encodeVarInt (8 * t + 2)).length) (by simp)
  unfold PB.getMessage
  rw [h1, exbind_ok]
  have ha : (8 * t + 2) &&& 7 = 2 := by rw [and_seven]; omega
  dsimp only
  rw [if_neg (by omega : ¬ (8 * t + 2) &&& 7 = 0),
    if_neg (by omega : ¬ (8 * t + 2) &&& 7 = 1),
    if_pos ha, h2, exbind_ok]
  have hlen : buf.length = pre.length + (encodeVarInt (8 * t + 2)).length
      + (encodeVarInt L).length + rest.length := by
    simp [hb]
    omega
  have hleft : PB.bytesLeft ⟨buf, pre.length + (encodeVarInt (8 * t + 2)).length
      + (encodeVarInt L).length⟩ = rest.length := by
    simp [PB.bytesLeft, hlen]
  simp only [hleft]
  rw [if_pos (by omega : L > rest.length)]

/-- C5: for every u64 value (all of which fit in at most 10
continuation-flagged 7-bit little-endian groups), encoding it in that
format and decoding with `readVarInt` yields the original value, with the
cursor advanced by exactly the number of encoded bytes; the encoding
indeed uses at most 10 groups. -/
theorem readVarInt_roundTrip (n : Nat) (pre rest : List Nat) (h : n < 2 ^ 64) :
    PB.readVarInt ⟨pre ++ encodeVarInt n ++ rest, pre.length⟩
      = .ok (n, ⟨pre ++ encodeVarInt n ++ rest, pre.length + (encodeVarInt n).length⟩)
    ∧ (encodeVarInt n).length ≤ 10 :=
  ⟨readVarInt_encode n _ pre rest h rfl _ rfl, encodeVarIntAux_length 10 n⟩

/-- Witness for C5 at the concrete value 300 (two encoded bytes). -/
theorem readVarInt_roundTrip_witness :
    PB.readVarInt ⟨[] ++ encodeVarInt 300 ++ [], List.length ([] : List Nat)⟩
      = .ok (300, ⟨[] ++ encodeVarInt 300 ++ [],
          List.length ([] : List Nat) + (encodeVarInt 300).length⟩)
    ∧ encodeVarInt 300 = [172, 2] :=
  ⟨(readVarInt_roundTrip 300 [] [] (by norm_num)).1, by decide⟩

/-- C6: reading a length-delimited (wire type 2) field raises the fatal
invalid-message error whenever the declared length exceeds the bytes
remaining in the buffer, and otherwise returns the sub-range of exactly
the declared N bytes, the outer cursor advancing past the key by exactly
the length of the length varint plus N. -/
theorem getMessage_lengthDelimited_contract :
    (∀ (t : Nat) (payload pre rest : List Nat),
      8 * t + 2 < 2 ^ 64 → payload.length < 2 ^ 64 →
      PB.getMessage ⟨pre ++ encodeVarInt (8 * t + 2)
          ++ (encodeVarInt payload.length ++ (payload ++ rest)), pre.length⟩
        = .ok ({ type := 2, tag := t, data := .sub payload },
               ⟨pre ++ encodeVarInt (8 * t + 2)
                  ++ (encodeVarInt payload.length ++ (payload ++ rest)),
                pre.length + (encodeVarInt (8 * t + 2)).length
                  + ((encodeVarInt payload.length).length + payload.length)⟩))
    ∧ (∀ (t L : Nat) (pre rest : List Nat),
      8 * t + 2 < 2 ^ 64 → L < 2 ^ 64 → rest.length < L →
      PB.getMessage ⟨pre ++ encodeVarInt (8 * t + 2) ++ (encodeVarInt L ++ rest), pre.length⟩
        = .error .invalidMessage) :=
  ⟨fun t payload pre rest ht hN => getMessage_ld_at t payload _ pre rest ht hN rfl,
   fun t L pre rest ht hL hshort => getMessage_ld_err_at t L _ pre rest ht hL hshort rfl⟩

/-- Witness for C6: a three-byte payload under tag 1 decodes to exactly
that sub-range, and a declared length 5 with only one byte left fails. -/
theorem getMessage_lengthDelimited_contract_witness :
    PB.getMessage ⟨[] ++ encodeVarInt (8 * 1 + 2)
        ++ (encodeVarInt (List.length [7, 8, 9]) ++ ([7, 8, 9] ++ [99])),
        List.length ([] : List Nat)⟩
      = .ok ({ type := 2, tag := 1, data := .sub [7, 8, 9] },
             ⟨[] ++ encodeVarInt (8 * 1 + 2)
                ++ (encodeVarInt (List.length [7, 8, 9]) ++ ([7, 8, 9] ++ [99])),
              List.length ([] : List Nat) + (encodeVarInt (8 * 1 + 2)).length
                + ((encodeVarInt (List.length [7, 8, 9])).length + List.length [7, 8, 9])⟩)
    ∧ PB.getMessage ⟨[] ++ encodeVarInt (8 * 0 + 2) ++ (encodeVarInt 5 ++ [1]),
        List.length ([] : List Nat)⟩ = .error .invalidMessage :=
  ⟨getMessage_lengthDelimited_contract.1 1 [7, 8, 9] [] [99] (by norm_num) (by norm_num),
   getMessage_lengthDelimited_contract.2 0 5 [] [1] (by norm_num) (by norm_num) (by norm_num)⟩

/-- An encoded varint always has at least one byte. -/
theorem encodeVarInt_length_pos (v : Nat) : 1 ≤ (encodeVarInt v).length := by
  unfold encodeVarInt encodeVarIntAux
  split <;> simp

/-- A pokemon-details walk over an exhausted buffer returns its
accumulator. -/
theorem parsePokemonDetailsLoop_exhausted (fuel : Nat) (s : PB) (pi : PokemonInfo)
    (h : s.bytesLeft = 0) : parsePokemonDetailsLoop fuel s pi = .ok pi := by
  cases fuel <;> simp [parsePokemonDetailsLoop, h]

/-- C1 counterexample: a creature-details message declaring exactly one
type field (tag 4, value 5) decodes to a type list with a single entry,
not to a duplicated pair of length at least two. -/
theorem pokemonTypes_single_field_counterexample :
    parsePokemonDetails [32, 5] = .ok { pokemonTypes := [(5 : Int)] }
    ∧ ¬ 2 ≤ List.length [(5 : Int)] := by
  constructor
  · decide
  · decide

/-- C1 amended: the extractor appends one list entry per declared type
field and performs no duplication, so a creature record declaring exactly
one type field ends up with a type list of length exactly one (the pair
of equal ids for single-typed creatures, when present, comes from the
input data itself, compare the source comment at line 1252). -/
theorem pokemonTypes_single_field_no_duplication (v : Nat) (hv : v < 2 ^ 64) :
    parsePokemonDetails (32 :: encodeVarInt v) = .ok { pokemonTypes := [toInt32 v] } := by
  have henc : encodeVarInt (8 * 4) = [32] := by decide
  have hmsg := getMessage_varint_at 4 v (32 :: encodeVarInt v) [] []
    (by norm_num) hv (by simp [henc])
  obtain ⟨L, hL⟩ : ∃ L, (encodeVarInt v).length = L + 1 :=
    ⟨(encodeVarInt v).length - 1, by have := encodeVarInt_length_pos v; omega⟩
  unfold parsePokemonDetails
  have hlen : (32 :: encodeVarInt v).length = (L + 1) + 1 := by simp [hL]
  rw [hlen, parsePokemonDetailsLoop]
  rw [if_neg (show ¬ PB.bytesLeft ⟨32 :: encodeVarInt v, 0⟩ = 0 by simp [PB.bytesLeft])]
  rw [show (⟨32 :: encodeVarInt v, 0⟩ : PB) = ⟨32 :: encodeVarInt v, List.length ([] : List Nat)⟩
      from by simp, hmsg, exbind_ok]
  dsimp only [Message.varIntData]
  rw [if_pos (show (4 : Nat) = 4 ∨ (4 : Nat) = 5 from Or.inl rfl)]
  rw [parsePokemonDetailsLoop_exhausted _ _ _
    (by simp [PB.bytesLeft, henc, hL]; omega)]
  rw [exbind_ok]
  rfl

/-- Witness for the amended C1 at type id 5. -/
theorem pokemonTypes_single_field_no_duplication_witness :
    parsePokemonDetails (32 :: encodeVarInt 5) = .ok { pokemonTypes := [toInt32 5] } :=
  pokemonTypes_single_field_no_duplication 5 (by norm_num)

/-- C2 counterexample: in a buffer holding a malformed item template
(whose contents `[11]` begin with the unsupported wire type 3) followed
by a well-formed one, the whole run aborts with the unsupported-type
error — the malformed record is not skipped and the second template is
never processed — although the trailing template on its own parses fine. -/
theorem decode_error_aborts_run_counterexample :
    parseGameMaster (fun _ => NameClass.other) [18, 1, 11, 18, 0] = .error .unsupportedType
    ∧ parseGameMaster (fun _ => NameClass.other) [18, 0] = .ok [Record.skipped] := by
  constructor
  · decide
  · decide

/-- C2 amended: a decode-fatal error while decoding one item-template
record's contents aborts the entire run (exactly as a failure on the
outermost buffer does): the record is not dropped, no later record is
processed, and the error of the template propagates unchanged. -/
theorem decode_error_in_template_aborts_run (classify : List Nat → NameClass)
    (tmpl rest : List Nat) (e : DecErr) (htl : tmpl.length < 2 ^ 64)
    (herr : processItemTemplate classify tmpl = .error e) :
    parseGameMaster classify (18 :: (encodeVarInt tmpl.length ++ (tmpl ++ rest)))
      = .error e := by
  have henc : encodeVarInt (8 * 2 + 2) = [18] := by decide
  have hmsg := getMessage_ld_at 2 tmpl (18 :: (encodeVarInt tmpl.length ++ (tmpl ++ rest)))
    [] rest (by norm_num) htl (by simp [henc])
  unfold parseGameMaster
  obtain ⟨F, hF⟩ : ∃ F, (18 :: (encodeVarInt tmpl.length ++ (tmpl ++ rest))).length = F + 1 :=
    ⟨(encodeVarInt tmpl.length ++ (tmpl ++ rest)).length, by simp⟩
  rw [hF, gmLoop]
  rw [if_neg (show ¬ PB.bytesLeft ⟨18 :: (encodeVarInt tmpl.length ++ (tmpl ++ rest)), 0⟩ = 0
    by simp [PB.bytesLeft])]
  rw [show (⟨18 :: (encodeVarInt tmpl.length ++ (tmpl ++ rest)), 0⟩ : PB)
      = ⟨18 :: (encodeVarInt tmpl.length ++ (tmpl ++ rest)), List.length ([] : List Nat)⟩
      from by simp, hmsg, exbind_ok]
  dsimp only [Message.subData]
  rw [if_pos (show (2 : Nat) = 2 ∧ (2 : Nat) = 2 from ⟨rfl, rfl⟩)]
  rw [herr, exbind_err]

/-- Witness for the amended C2: the one-byte template `[11]` fails with
the unsupported-type error, and a run whose first envelope carries it
aborts with that same error even though a well-formed envelope follows. -/
theorem decode_error_in_template_aborts_run_witness :
    processItemTemplate (fun _ => NameClass.other) [11] = .error .unsupportedType
    ∧ parseGameMaster (fun _ => NameClass.other)
        (18 :: (encodeVarInt (List.length [11]) ++ ([11] ++ [18, 0])))
      = .error .unsupportedType :=
  ⟨by decide,
   decode_error_in_template_aborts_run (fun _ => NameClass.other) [11] [18, 0]
     .unsupportedType (by norm_num) (by decide)⟩

/-- Truncation toward zero agrees with the floor on nonnegative
rationals. -/
theorem ratTrunc_eq_floor (q : ℚ) (hq : 0 ≤ q) : ratTrunc q = ⌊q⌋ := by
  unfold ratTrunc
  rw [Int.tdiv_eq_ediv (Rat.num_nonneg.mpr hq) (Int.natCast_nonneg _)]
  exact Rat.floor_def.symm

/-- C `fmod` of nonnegative arguments is nonnegative. -/
theorem cfmod_nonneg (x y : ℚ) (hx : 0 ≤ x) (hy : 0 < y) : 0 ≤ cfmod x y := by
  unfold cfmod
  rw [ratTrunc_eq_floor _ (div_nonneg hx hy.le)]
  have h1 : (⌊x / y⌋ : ℚ) ≤ x / y := Int.floor_le _
  have h2 : y * (x / y) = x := mul_div_cancel₀ x hy.ne'
  nlinarith [mul_le_mul_of_nonneg_left h1 hy.le]

/-- C `fmod` of nonnegative arguments stays below the modulus. -/
theorem cfmod_lt (x y : ℚ) (hx : 0 ≤ x) (hy : 0 < y) : cfmod x y < y := by
  unfold cfmod
  rw [ratTrunc_eq_floor _ (div_nonneg hx hy.le)]
  have h1 : x / y < ⌊x / y⌋ + 1 := Int.lt_floor_add_one _
  have h2 : y * (x / y) = x := mul_div_cancel₀ x hy.ne'
  nlinarith [mul_lt_mul_of_pos_left h1 hy]

/-- Shape of a charged-branch step. -/
theorem simStep_charged_eq (c : SimCtx) (s : SimState)
    (hch : s.energy ≥ -(c.chargedMove.energy : ℚ)) :
    simStep c s =
      { time := s.time + c.chargedMove.duration
        energy :=
          if s.energy + (c.chargedMove.energy : ℚ)
              + (c.chargedMove.duration / c.conf.battleTime) * c.extraEnergy > 100 then 100
          else s.energy + (c.chargedMove.energy : ℚ)
              + (c.chargedMove.duration / c.conf.battleTime) * c.extraEnergy
        damage := s.damage + c.chargedMove.power
            * (if c.chargedMove.moveType ∈ c.pi.pokemonTypes then 5 / 4 else 1)
        primaryDamage := s.primaryDamage
        secondaryDamage := s.secondaryDamage + c.chargedMove.power
            * (if c.chargedMove.moveType ∈ c.pi.pokemonTypes then 5 / 4 else 1) } := by
  unfold simStep
  rw [if_pos hch]

/-- Shape of a fast-branch step, with the packed cast count abstracted as
`h`. -/
theorem simStep_fast_eq (c : SimCtx) (s : SimState)
    (hch : ¬ s.energy ≥ -(c.chargedMove.energy : ℚ)) (h : Int)
    (hh : h = if c.dodging then
        min ⌊(c.conf.roundLength - cfmod s.time c.conf.roundLength) / c.fastMove.duration⌋
          c.expectedHitsPerTurn
      else 1) :
    simStep c s =
      { time :=
          if c.dodging then
            s.time + c.fastMove.duration * (h : ℚ)
              + (if c.conf.roundLength - cfmod s.time c.conf.roundLength
                    - c.fastMove.duration * (h : ℚ) < 1 / 2 then 1 / 2
                 else c.conf.roundLength - cfmod s.time c.conf.roundLength
                    - c.fastMove.duration * (h : ℚ))
          else s.time + c.fastMove.duration * (h : ℚ)
        energy :=
          if s.energy + (c.fastMove.energy : ℚ) * (h : ℚ)
              + (c.fastMove.duration / c.conf.battleTime) * c.extraEnergy * (h : ℚ) > 100
          then 100
          else s.energy + (c.fastMove.energy : ℚ) * (h : ℚ)
              + (c.fastMove.duration / c.conf.battleTime) * c.extraEnergy * (h : ℚ)
        damage := s.damage + c.fastMove.power
            * (if c.fastMove.moveType ∈ c.pi.pokemonTypes then 5 / 4 else 1) * (h : ℚ)
        primaryDamage := s.primaryDamage + c.fastMove.power
            * (if c.fastMove.moveType ∈ c.pi.pokemonTypes then 5 / 4 else 1) * (h : ℚ)
        secondaryDamage := s.secondaryDamage } := by
  subst hh
  unfold simStep
  rw [if_neg hch]

/-- The packed cast count of a fast step is never negative (the strike
window is never past, the floor of a nonnegative quotient is nonnegative
and the per-turn cap is at least one). -/
theorem fast_hits_nonneg (c : SimCtx) (s : SimState)
    (hr : 0 < c.conf.roundLength) (hfd : 0 < c.fastMove.duration)
    (hE : 1 ≤ c.expectedHitsPerTurn) (ht : 0 ≤ s.time) :
    0 ≤ (if c.dodging then
        min ⌊(c.conf.roundLength - cfmod s.time c.conf.roundLength) / c.fastMove.duration⌋
          c.expectedHitsPerTurn
      else 1) := by
  split
  · apply le_min
    · apply Int.floor_nonneg.mpr
      apply div_nonneg _ hfd.le
      have := cfmod_lt s.time c.conf.roundLength ht hr
      linarith
    · omega
  · norm_num

/-- One battle-loop step preserves nonnegative time and the energy window
[0, 100], given the data-model sign conditions (positive strike interval
and durations, nonnegative fast-move energy gain, nonnegative passive
regeneration, a positive per-turn cap). -/
theorem simStep_inv (c : SimCtx)
    (hr : 0 < c.conf.roundLength) (hbt : 0 < c.conf.battleTime)
    (hfd : 0 < c.fastMove.duration) (hcd : 0 ≤ c.chargedMove.duration)
    (hfe : 0 ≤ (c.fastMove.energy : ℚ)) (hex : 0 ≤ c.extraEnergy)
    (hE : 1 ≤ c.expectedHitsPerTurn) (s : SimState)
    (ht : 0 ≤ s.time) (he0 : 0 ≤ s.energy) (he1 : s.energy ≤ 100) :
    0 ≤ (simStep c s).time ∧ 0 ≤ (simStep c s).energy ∧ (simStep c s).energy ≤ 100 := by
  by_cases hch : s.energy ≥ -(c.chargedMove.energy : ℚ)
  · rw [simStep_charged_eq c s hch]
    have hreg : 0 ≤ (c.chargedMove.duration / c.conf.battleTime) * c.extraEnergy :=
      mul_nonneg (div_nonneg hcd hbt.le) hex
    refine ⟨by dsimp only; linarith, ?_, ?_⟩
    · dsimp only
      split
      · norm_num
      · linarith
    · dsimp only
      split
      · norm_num
      · next hcl => linarith [not_lt.mp hcl]
  · have hhits := fast_hits_nonneg c s hr hfd hE ht
    rw [simStep_fast_eq c s hch _ rfl]
    set h : Int := (if c.dodging then
        min ⌊(c.conf.roundLength - cfmod s.time c.conf.roundLength) / c.fastMove.duration⌋
          c.expectedHitsPerTurn
      else 1) with hdef
    have hq : (0 : ℚ) ≤ (h : ℚ) := by exact_mod_cast hhits
    have hdh : 0 ≤ c.fastMove.duration * (h : ℚ) := mul_nonneg hfd.le hq
    have hen : 0 ≤ (c.fastMove.energy : ℚ) * (h : ℚ) := mul_nonneg hfe hq
    have hreg : 0 ≤ (c.fastMove.duration / c.conf.battleTime) * c.extraEnergy * (h : ℚ) :=
      mul_nonneg (mul_nonneg (div_nonneg hfd.le hbt.le) hex) hq
    refine ⟨?_, ?_, ?_⟩
    · dsimp only
      split
      · split
        · linarith
        · next hw => linarith [not_lt.mp hw]
      · linarith
    · dsimp only
      split
      · norm_num
      · linarith
    · dsimp only
      split
      · norm_num
      · next hcl => linarith [not_lt.mp hcl]

/-- Under dodging, every battle-loop step advances the clock by at least
`min 0.5 chargedMove.duration`: a charged cast takes its full duration, a
fast batch always ends with a dodge window of at least half a second. -/
theorem simStep_time_advance (c : SimCtx)
    (hr : 0 < c.conf.roundLength) (hfd : 0 < c.fastMove.duration)
    (hE : 1 ≤ c.expectedHitsPerTurn) (hd : c.dodging = true)
    (s : SimState) (ht : 0 ≤ s.time) :
    s.time + min (1 / 2 : ℚ) c.chargedMove.duration ≤ (simStep c s).time := by
  by_cases hch : s.energy ≥ -(c.chargedMove.energy : ℚ)
  · rw [simStep_charged_eq c s hch]
    dsimp only
    have := min_le_right (1 / 2 : ℚ) c.chargedMove.duration
    linarith
  · have hhits := fast_hits_nonneg c s hr hfd hE ht
    rw [simStep_fast_eq c s hch _ rfl]
    set h : Int := (if c.dodging then
        min ⌊(c.conf.roundLength - cfmod s.time c.conf.roundLength) / c.fastMove.duration⌋
          c.expectedHitsPerTurn
      else 1) with hdef
    have hq : (0 : ℚ) ≤ (h : ℚ) := by exact_mod_cast hhits
    have hdh : 0 ≤ c.fastMove.duration * (h : ℚ) := mul_nonneg hfd.le hq
    have hmin := min_le_left (1 / 2 : ℚ) c.chargedMove.duration
    dsimp only
    rw [hd]
    simp only [if_true]
    split
    · linarith
    · next hw => linarith [not_lt.mp hw]

/-- Termination of the battle loop: with `k` steps of fuel the loop
finishes whenever `k` advances of the per-step minimum reach the
horizon. -/
theorem simRun_some_of (c : SimCtx)
    (hr : 0 < c.conf.roundLength) (hfd : 0 < c.fastMove.duration)
    (hcd : 0 < c.chargedMove.duration)
    (hE : 1 ≤ c.expectedHitsPerTurn) (hd : c.dodging = true) :
    ∀ (k : Nat) (s : SimState), 0 ≤ s.time →
      c.conf.battleTime ≤ s.time + k * min (1 / 2 : ℚ) c.chargedMove.duration →
      ∃ s2, simRun c k s = some s2 := by
  intro k
  induction k with
  | zero =>
    intro s ht hk
    refine ⟨s, ?_⟩
    unfold simRun
    rw [if_neg (by push_neg; simpa using hk)]
  | succ k ih =>
    intro s ht hk
    by_cases hlt : s.time < c.conf.battleTime
    · have hadv := simStep_time_advance c hr hfd hE hd s ht
      have hmin : 0 < min (1 / 2 : ℚ) c.chargedMove.duration := lt_min (by norm_num) hcd
      obtain ⟨s2, hs2⟩ := ih (simStep c s) (by linarith)
        (by
          have : (k + 1 : Nat) * min (1 / 2 : ℚ) c.chargedMove.duration
              = k * min (1 / 2 : ℚ) c.chargedMove.duration
                + min (1 / 2 : ℚ) c.chargedMove.duration := by
            push_cast
            ring
          rw [this] at hk
          linarith)
      refine ⟨s2, ?_⟩
      unfold simRun
      rw [if_pos hlt]
      exact hs2
    · refine ⟨s, ?_⟩
      unfold simRun
      rw [if_neg hlt]

/-- C8: throughout every combat simulation the energy pool starts at 0
and stays within [0, 100] after every step: the pool is clamped at 100
after each iteration's updates, and a charged cast — taken only when the
accumulated energy covers the (non-positively stored) cost — never drives
it below 0.  The sign hypotheses are the data-model conventions: positive
strike interval, battle time and durations, a fast ability that generates
energy, nonnegative passive regeneration and a positive per-turn cap. -/
theorem sim_energy_invariant (c : SimCtx)
    (hr : 0 < c.conf.roundLength) (hbt : 0 < c.conf.battleTime)
    (hfd : 0 < c.fastMove.duration) (hcd : 0 ≤ c.chargedMove.duration)
    (hfe : 0 ≤ (c.fastMove.energy : ℚ)) (hex : 0 ≤ c.extraEnergy)
    (hE : 1 ≤ c.expectedHitsPerTurn) :
    simInit.energy = 0
    ∧ ∀ n : Nat, 0 ≤ ((simStep c)^[n] simInit).energy
        ∧ ((simStep c)^[n] simInit).energy ≤ 100 := by
  refine ⟨rfl, ?_⟩
  have key : ∀ n : Nat, 0 ≤ ((simStep c)^[n] simInit).time
      ∧ 0 ≤ ((simStep c)^[n] simInit).energy ∧ ((simStep c)^[n] simInit).energy ≤ 100 := by
    intro n
    induction n with
    | zero => simp [simInit]
    | succ n ih =>
      rw [Function.iterate_succ_apply']
      exact simStep_inv c hr hbt hfd hcd hfe hex hE _ ih.1 ih.2.1 ih.2.2
  exact fun n => ⟨(key n).2.1, (key n).2.2⟩

/-- C10: for positive fast and charged durations (and a dodging-eligible
moveset, as the caller guarantees), the battle loop terminates: every
iteration advances the virtual clock by at least
`min 0.5 chargedMove.duration`, so some finite fuel brings the run to
completion. -/
theorem sim_terminates (c : SimCtx)
    (hr : 0 < c.conf.roundLength) (hfd : 0 < c.fastMove.duration)
    (hcd : 0 < c.chargedMove.duration) (hE : 1 ≤ c.expectedHitsPerTurn)
    (hd : c.dodging = true) :
    (∀ s : SimState, 0 ≤ s.time →
        s.time + min (1 / 2 : ℚ) c.chargedMove.duration ≤ (simStep c s).time)
    ∧ ∃ fuel s2, simRun c fuel simInit = some s2 := by
  refine ⟨fun s ht => simStep_time_advance c hr hfd hE hd s ht, ?_⟩
  have hmin : 0 < min (1 / 2 : ℚ) c.chargedMove.duration := lt_min (by norm_num) hcd
  obtain ⟨k, hk⟩ := exists_nat_ge (c.conf.battleTime / min (1 / 2 : ℚ) c.chargedMove.duration)
  obtain ⟨s2, hs2⟩ := simRun_some_of c hr hfd hcd hE hd k simInit (le_refl 0)
    (by
      have hbt : c.conf.battleTime ≤ k * min (1 / 2 : ℚ) c.chargedMove.duration := by
        rw [div_le_iff hmin] at hk
        linarith
      simpa [simInit] using hbt)
  exact ⟨k, s2, hs2⟩

/-- Witness for C8 at the sample context, after three steps. -/
theorem sim_energy_invariant_witness :
    0 ≤ ((simStep sampleCtx)^[3] simInit).energy
    ∧ ((simStep sampleCtx)^[3] simInit).energy ≤ 100 :=
  (sim_energy_invariant sampleCtx (by norm_num [sampleCtx])
    (by norm_num [sampleCtx]) (by norm_num [sampleCtx, sampleFast])
    (by norm_num [sampleCtx, sampleCharged]) (by norm_num [sampleCtx, sampleFast])
    (by norm_num [sampleCtx]) (by norm_num [sampleCtx])).2 3

/-- Witness for C10 at the sample context. -/
theorem sim_terminates_witness :
    ∃ fuel s2, simRun sampleCtx fuel simInit = some s2 :=
  (sim_terminates sampleCtx (by norm_num [sampleCtx])
    (by norm_num [sampleCtx, sampleFast]) (by norm_num [sampleCtx, sampleCharged])
    (by norm_num [sampleCtx]) (by norm_num [sampleCtx])).2

/-- C4 amended: the passive energy accrual
`(duration / battleTime) * extraEnergy` is applied on every iteration of
the battle loop, charged casts included: after a charged cast the energy
is the old energy plus the cast's delta plus the passive term, clamped at
100 — not merely the old energy plus the delta. -/
theorem regen_accrues_after_charged_cast (c : SimCtx) (s : SimState)
    (hch : s.energy ≥ -(c.chargedMove.energy : ℚ)) :
    (simStep c s).energy =
      if s.energy + (c.chargedMove.energy : ℚ)
          + (c.chargedMove.duration / c.conf.battleTime) * c.extraEnergy > 100 then 100
      else s.energy + (c.chargedMove.energy : ℚ)
          + (c.chargedMove.duration / c.conf.battleTime) * c.extraEnergy := by
  rw [simStep_charged_eq c s hch]

/-- C4 counterexample: the very first step of this simulation is a
charged cast (energy 0 covers the cost 0), after which the energy pool
holds 0.7317 — the passive regeneration accrued — although the claim
("never after a charged-ability cast") would leave it at exactly 0. -/
theorem charged_cast_regen_counterexample :
    (simStep regenCtx simInit).energy = 7317 / 10000
    ∧ ((7317 : ℚ) / 10000) ≠ 0 := by
  constructor
  · rw [simStep_charged_eq regenCtx simInit (by norm_num [regenCtx, regenCharged, simInit])]
    norm_num [regenCtx, regenCharged, simInit]
  · norm_num

/-- Witness for the amended C4 at the zero-cost charged context. -/
theorem regen_accrues_after_charged_cast_witness :
    (simStep regenCtx simInit).energy =
      if simInit.energy + (regenCtx.chargedMove.energy : ℚ)
          + (regenCtx.chargedMove.duration / regenCtx.conf.battleTime) * regenCtx.extraEnergy
          > 100 then 100
      else simInit.energy + (regenCtx.chargedMove.energy : ℚ)
          + (regenCtx.chargedMove.duration / regenCtx.conf.battleTime) * regenCtx.extraEnergy :=
  regen_accrues_after_charged_cast regenCtx simInit
    (by norm_num [regenCtx, regenCharged, simInit])

/-- C3 counterexample: at strike interval 1.49 and fast duration 1 the
code's value (`floor((1.49 - 0.5) / 1)`, i.e. 0) differs from the claimed
formula `floor((1.49 - 0.49) / 1)`, i.e. 1. -/
theorem expectedHitsPerTurn_counterexample :
    expectedHitsPerTurn (149 / 100) 1 = 0
    ∧ (⌊((149 : ℚ) / 100 - 49 / 100) / 1⌋ : Int) = 1
    ∧ (0 : Int) ≠ 1 := by
  refine ⟨?_, ?_, by norm_num⟩
  · unfold expectedHitsPerTurn
    rw [show ((149 : ℚ) / 100 - 1 / 2) / 1 = 99 / 100 by norm_num]
    rw [Int.floor_eq_iff]
    norm_num
  · rw [show ((149 : ℚ) / 100 - 49 / 100) / 1 = (1 : ℚ) by norm_num]
    exact Int.floor_one

/-- C3 amended: the expected-hits-per-turn value is computed once per
simulation as `floor((opponentStrikeInterval - 0.5) / fastMove.duration)`
(the constant is 0.5, not 0.49), and every ranking entry the moveset
contributes to any pool records exactly that value. -/
theorem fastAttacksPerTurn_formula (conf : SimConf) (typeIds : List Int)
    (eff : Int → Int → ℚ) (pokemonId : Int) (pi : SimPokemon) (i j : Nat)
    (fmi cmi : Int) (fm cm : SimMove) (fuel : Nat) :
    (processMoveset conf typeIds eff pokemonId pi i j fmi cmi fm cm fuel).elim True
      (fun out =>
        ((out.perPokemon ++ out.overall ++ out.byType.map Prod.snd
            ++ out.counters.map Prod.snd).all
          fun mdps => mdps.fastAttacksPerTurn == ⌊(conf.roundLength - 1 / 2) / fm.duration⌋)
        = true) := by
  simp only [processMoveset]
  by_cases hE : expectedHitsPerTurn conf.roundLength fm.duration > 0
  · rw [if_pos hE]
    cases hrun : simRun ⟨conf, pi, fm, cm, expectedHitsPerTurn conf.roundLength fm.duration,
        decide (expectedHitsPerTurn conf.roundLength fm.duration > 0),
        (1 / 2 : ℚ) * (((pi.baseStamina : ℚ) + 15) * ATTACKER_CPM)⟩ fuel simInit with
    | none => simp [hrun]
    | some s =>
      simp only [hrun, Option.elim]
      simp only [List.all_append, Bool.and_eq_true]
      refine ⟨⟨⟨?_, ?_⟩, ?_⟩, ?_⟩
      · simp [MovesetDPS.populate, expectedHitsPerTurn]
      · simp [MovesetDPS.populate, expectedHitsPerTurn]
      · split
        · simp [MovesetDPS.populate, expectedHitsPerTurn]
        · simp [MovesetDPS.populate, expectedHitsPerTurn]
      · rw [List.all_eq_true]
        intro x hx
        rcases List.mem_map.mp hx with ⟨pair, hpair, rfl⟩
        rcases List.mem_bind.mp hpair with ⟨t1, ht1, hmem⟩
        rcases List.mem_map.mp hmem with ⟨t2, ht2, rfl⟩
        simp [MovesetDPS.populate, expectedHitsPerTurn]
  · rw [if_neg hE]
    simp

/-- C7: a moveset whose fast ability satisfies
`floor((strikeInterval - 0.49) / duration) == 0` cannot dodge-cast under
the code's own (stricter, 0.5-based) test either, so the per-moveset loop
skips it entirely: nothing is added to the per-pokemon list, the overall
list, the per-type buckets or any type-pair counter bucket. -/
theorem nonDodging_excluded_from_pools (conf : SimConf) (typeIds : List Int)
    (eff : Int → Int → ℚ) (pokemonId : Int) (pi : SimPokemon) (i j : Nat)
    (fmi cmi : Int) (fm cm : SimMove) (fuel : Nat)
    (hd : 0 < fm.duration)
    (h49 : ⌊(conf.roundLength - 49 / 100) / fm.duration⌋ = 0) :
    processMoveset conf typeIds eff pokemonId pi i j fmi cmi fm cm fuel
      = some ⟨[], [], [], []⟩ := by
  have hle : (conf.roundLength - 1 / 2) / fm.duration
      ≤ (conf.roundLength - 49 / 100) / fm.duration :=
    (div_le_div_right hd).mpr (by linarith)
  have hE : expectedHitsPerTurn conf.roundLength fm.duration ≤ 0 := by
    unfold expectedHitsPerTurn
    calc ⌊(conf.roundLength - 1 / 2) / fm.duration⌋
        ≤ ⌊(conf.roundLength - 49 / 100) / fm.duration⌋ := Int.floor_le_floor hle
      _ = 0 := h49
  simp only [processMoveset]
  rw [if_neg (by omega : ¬ expectedHitsPerTurn conf.roundLength fm.duration > 0)]

/-- Witness for C7: strike interval 1, fast duration 1, where
`floor((1 - 0.49) / 1) = 0`; the moveset contributes nothing to any
pool. -/
theorem nonDodging_excluded_from_pools_witness :
    processMoveset ⟨1, 100⟩ [1] (fun _ _ => 1) 1 samplePokemon 0 0 1 2
      ⟨1, 1, 50, 1⟩ ⟨10, 2, -50, 1⟩ 0 = some ⟨[], [], [], []⟩ :=
  nonDodging_excluded_from_pools ⟨1, 100⟩ [1] (fun _ _ => 1) 1 samplePokemon 0 0 1 2
    ⟨1, 1, 50, 1⟩ ⟨10, 2, -50, 1⟩ 0 (by norm_num)
    (by
      rw [show ((1 : ℚ) - 49 / 100) / 1 = 51 / 100 by norm_num]
      rw [Int.floor_eq_iff]
      norm_num)
